import Mathlib

/-!
Verification of the familiar-schemas composition scripts.

This file gives a shallow embedding of the two Python scripts
`scripts/compose_entities.py` and `fix_typed_ids.py`:

* JSON values are modelled by the mutual inductive `Json` / `JsonArr` /
  `JsonObj`; Python dicts appearing at the top level of a schema are
  modelled as ordered association lists `List (String × α)` with
  insertion-order-preserving update (`dinsert`), matching CPython dict
  semantics.
* A schema document is the structure `Schema`: its `properties` mapping,
  its `required` list, the optional `x-familiar-composition` metadata
  key, and all remaining top-level keys (`extra`), which the scripts
  never touch.
* File writes are modelled by an explicit write log carrying the exact
  character sequence the script would emit (`json.dump` with
  `indent=2`, modelled by `dumpVal`), so that statements about dry runs
  and trailing newlines are about the bytes written.
-/

namespace FamiliarSchemas

mutual

inductive Json where
  | null : Json
  | bool : Bool → Json
  | num : Int → Json
  | str : String → Json
  | arr : JsonArr → Json
  | obj : JsonObj → Json
  deriving DecidableEq

inductive JsonArr where
  | nil : JsonArr
  | cons : Json → JsonArr → JsonArr
  deriving DecidableEq

inductive JsonObj where
  | nil : JsonObj
  | cons : String → Json → JsonObj → JsonObj
  deriving DecidableEq

end

/-- Ordered association-list lookup, the model of Python `d[k]` / `d.get(k)`. -/
def alookup {α : Type} : List (String × α) → String → Option α
  | [], _ => none
  | kv :: m, k => if kv.1 == k then some kv.2 else alookup m k

/-- Model of Python `k in d` for a dict `d`. -/
def hasKey {α : Type} (m : List (String × α)) (k : String) : Bool :=
  m.any (fun kv => kv.1 == k)

/-- Model of Python dict assignment `d[k] = v`: updating an existing key
keeps its position, a new key is appended at the end. -/
def dinsert {α : Type} (m : List (String × α)) (k : String) (v : α) : List (String × α) :=
  if hasKey m k then m.map (fun kv => if kv.1 == k then (k, v) else kv)
  else m ++ [(k, v)]

/-- The keys of an ordered mapping, in order. -/
def keysOf {α : Type} (m : List (String × α)) : List String :=
  m.map Prod.fst

/-- Conversion of an ordered association list into a JSON object value. -/
def objOf : List (String × Json) → JsonObj
  | [] => JsonObj.nil
  | kv :: m => JsonObj.cons kv.1 kv.2 (objOf m)

/-- Conversion of a list of strings into a JSON array of strings. -/
def strArrOf : List String → JsonArr
  | [] => JsonArr.nil
  | s :: l => JsonArr.cons (Json.str s) (strArrOf l)

/-! ### The serializer: Python `json.dump(obj, f, indent=2)`

`dumpVal ind j` is the character sequence `json.dump` emits for `j` when
the current indentation level is `ind`.  Only the escapes that can occur
in this repository's documents are modelled (`"`, `\`, newline); all
other characters are emitted verbatim. -/

def lbrace : Char := '\x7b'

def rbrace : Char := '\x7d'

def escChar (c : Char) : List Char :=
  if c == '"' then ['\\', '"']
  else if c == '\\' then ['\\', '\\']
  else if c == '\n' then ['\\', 'n']
  else [c]

def quoteStr (s : String) : List Char :=
  '"' :: (s.data.foldr (fun c acc => escChar c ++ acc) ['"'])

def indentOf (n : Nat) : List Char :=
  List.replicate n ' '

mutual

def dumpVal : Nat → Json → List Char
  | _, Json.null => "null".data
  | _, Json.bool true => "true".data
  | _, Json.bool false => "false".data
  | _, Json.num n => (toString n).data
  | _, Json.str s => quoteStr s
  | ind, Json.arr xs => dumpArrTop ind xs
  | ind, Json.obj kvs => dumpObjTop ind kvs
termination_by structural _ j => j

def dumpArrTop : Nat → JsonArr → List Char
  | _, JsonArr.nil => ['[', ']']
  | ind, JsonArr.cons x xs =>
      '[' :: '\n' :: indentOf (ind + 2) ++ dumpVal (ind + 2) x ++ dumpArrRest (ind + 2) xs ++
        '\n' :: indentOf ind ++ [']']
termination_by structural _ xs => xs

def dumpArrRest : Nat → JsonArr → List Char
  | _, JsonArr.nil => []
  | ind, JsonArr.cons y ys =>
      ',' :: '\n' :: indentOf ind ++ dumpVal ind y ++ dumpArrRest ind ys
termination_by structural _ xs => xs

def dumpObjTop : Nat → JsonObj → List Char
  | _, JsonObj.nil => [lbrace, rbrace]
  | ind, JsonObj.cons k v kvs =>
      lbrace :: '\n' :: indentOf (ind + 2) ++ quoteStr k ++ ':' :: ' ' :: dumpVal (ind + 2) v ++
        dumpObjRest (ind + 2) kvs ++ '\n' :: indentOf ind ++ [rbrace]
termination_by structural _ kvs => kvs

def dumpObjRest : Nat → JsonObj → List Char
  | _, JsonObj.nil => []
  | ind, JsonObj.cons k v kvs =>
      ',' :: '\n' :: indentOf ind ++ quoteStr k ++ ':' :: ' ' :: dumpVal ind v ++
        dumpObjRest ind kvs
termination_by structural _ kvs => kvs

end

/-! ### `scripts/compose_entities.py` -/

/-- A schema document: the `properties` mapping, the `required` list, the
optional `x-familiar-composition` metadata key, and all other top-level
keys, which `compose_entity` never touches.  A missing `properties` or
`required` key is modelled by the empty list, matching the script's
`schema.get("properties", \x7b\x7d)` / `schema.get("required", [])`
defaults. -/
structure Schema where
  props : List (String × Json)
  required : List String
  xcomp : Option Json
  extra : List (String × Json)
  deriving DecidableEq

/-- `PHYSICS_ENTITIES` from `compose_entities.py`. -/
def PHYSICS_ENTITIES : List String :=
  ["Thread", "Moment", "Intent", "Bond", "Pulse", "Focus", "Filament", "Motif"]

/-- `IDENTITY_FIELDS` from `compose_entities.py`. -/
def IDENTITY_FIELDS : List String :=
  ["id", "tenant_id", "created_at"]

/-- `PHYSICS_FIELDS` from `compose_entities.py`. -/
def PHYSICS_FIELDS : List String :=
  ["amplitude", "energy", "position", "velocity", "temperature",
   "position_workspace", "velocity_workspace"]

/-- The field classifier of `compose_entity`, parameterised by the two
group member sets: the three dict comprehensions partitioning `props`
into identity fields, physics fields and own fields. -/
def classifyFields (idFields physFields : List String) (props : List (String × Json)) :
    List (String × Json) × List (String × Json) × List (String × Json) :=
  (props.filter (fun kv => idFields.contains kv.1),
   props.filter (fun kv => physFields.contains kv.1),
   props.filter (fun kv => !idFields.contains kv.1 && !physFields.contains kv.1))

/-- The value assigned to the `physics` property by `compose_entity`. -/
def physicsRefVal : Json :=
  Json.obj (objOf
    [("$ref", Json.str "../components/FieldExcitation.schema.json"),
     ("description", Json.str "Field excitation physics state")])

/-- The `x-familiar-composition` record `compose_entity` writes when the
key is absent. -/
def compositionRecord (physicsIn : List (String × Json)) : Json :=
  Json.obj (objOf
    [("physics", Json.arr (strArrOf (keysOf physicsIn))),
     ("note", Json.str "identity fields kept direct (typed IDs)")])

/-- One of the two `for k, v in ...: new_props[k] = v; if k in required:
new_required.append(k)` loops of `compose_entity`, threading the pair
`(new_props, new_required)`. -/
def addFields (required : List String) (acc : List (String × Json) × List String)
    (fields : List (String × Json)) : List (String × Json) × List String :=
  fields.foldl
    (fun acc kv =>
      (dinsert acc.1 kv.1 kv.2,
       if required.contains kv.1 then acc.2 ++ [kv.1] else acc.2))
    acc

/-- The `new_props` accumulation of the two copy loops, in isolation:
repeated dict assignment. -/
def addProps (acc : List (String × Json)) (fields : List (String × Json)) :
    List (String × Json) :=
  fields.foldl (fun p kv => dinsert p kv.1 kv.2) acc

/-- The identity fields found in a document (`identity_in_schema`). -/
def identitySel (s : Schema) : List (String × Json) :=
  s.props.filter (fun kv => IDENTITY_FIELDS.contains kv.1)

/-- The physics fields found in a document (`physics_in_schema`). -/
def physicsSel (s : Schema) : List (String × Json) :=
  s.props.filter (fun kv => PHYSICS_FIELDS.contains kv.1)

/-- The entity-specific fields of a document (`own_fields`). -/
def ownSel (s : Schema) : List (String × Json) :=
  s.props.filter (fun kv => !IDENTITY_FIELDS.contains kv.1 && !PHYSICS_FIELDS.contains kv.1)

/-- The `physics` reference entry contributed to `new_props`: one entry
when the document has physics fields, nothing otherwise. -/
def physPart (s : Schema) : List (String × Json) :=
  if (physicsSel s).isEmpty then [] else [("physics", physicsRefVal)]

/-- The `physics` entry contributed to `new_required`. -/
def physReq (s : Schema) : List String :=
  if (physicsSel s).isEmpty then [] else ["physics"]

/-- The names a copy loop appends to `new_required`: the copied field
names that are in the original `required` set, in copy order. -/
def reqFilter (req : List String) (fields : List (String × Json)) : List String :=
  (keysOf fields).filter (fun k => req.contains k)

/-- The pure document transformation performed by `compose_entity`
(everything between `json.load` and the write / dry-run branch). -/
def compose_entity (s : Schema) : Schema :=
  let c := classifyFields IDENTITY_FIELDS PHYSICS_FIELDS s.props
  let identityIn := c.1
  let physicsIn := c.2.1
  let ownFields := c.2.2
  let step1 := addFields s.required ([], []) identityIn
  let step2 :=
    if physicsIn.isEmpty then step1
    else (dinsert step1.1 "physics" physicsRefVal, step1.2 ++ ["physics"])
  let step3 := addFields s.required step2 ownFields
  { props := step3.1
    required := step3.2
    xcomp := some (match s.xcomp with
      | some j => j
      | none => compositionRecord physicsIn)
    extra := s.extra }

/-- The per-document report `compose_entity` prints: the identity,
physics and own field names found in the document. -/
structure ComposeReport where
  identityFound : List String
  physicsFound : List String
  ownFields : List String
  deriving DecidableEq

def composeReport (s : Schema) : ComposeReport :=
  let c := classifyFields IDENTITY_FIELDS PHYSICS_FIELDS s.props
  { identityFound := keysOf c.1
    physicsFound := keysOf c.2.1
    ownFields := keysOf c.2.2 }

/-- The top-level JSON value `compose_entity` serializes: the schema dict
with `properties` and `required` replaced and `x-familiar-composition`
present.  The surviving top-level key order is abstracted as: the
untouched keys, then `properties`, `required` and the metadata key. -/
def schemaJson (s : Schema) : Json :=
  Json.obj (objOf (s.extra ++
    [("properties", Json.obj (objOf s.props)),
     ("required", Json.arr (strArrOf s.required))] ++
    (match s.xcomp with
     | some j => [("x-familiar-composition", j)]
     | none => [])))

/-- The bytes `compose_entity` writes: `json.dump(schema, f, indent=2)`,
with no trailing newline. -/
def composeWritePayload (s : Schema) : List Char :=
  dumpVal 0 (schemaJson s)

/-- `compose_entity` including its file effects: the backing store maps
paths to documents, and every performed write is recorded in a log of
`(path, bytes)` pairs.  A missing document yields no result (the caller
`main` only invokes `compose_entity` on existing paths and otherwise
reports "Schema not found"). -/
def compose_entity_run (store : List (String × Schema)) (path : String) (dryRun : Bool) :
    List (String × Schema) × List (String × List Char) × Option (Schema × ComposeReport) :=
  match alookup store path with
  | none => (store, [], none)
  | some s =>
      let out := compose_entity s
      let rep := composeReport s
      if dryRun then (store, [], some (out, rep))
      else (dinsert store path out, [(path, composeWritePayload out)], some (out, rep))

/-! ### `fix_typed_ids.py` -/

/-- A database schema document as seen by `update_schema`: its
`properties` mapping plus all other top-level keys, which the script
never touches. -/
structure DbSchema where
  properties : List (String × Json)
  extra : List (String × Json)
  deriving DecidableEq

/-- `make_ref` from `fix_typed_ids.py`. -/
def make_ref (refPath : String) (nullable : Bool) : Json :=
  if nullable then
    Json.obj (objOf
      [("anyOf", Json.arr (JsonArr.cons (Json.obj (objOf [("$ref", Json.str refPath)]))
         (JsonArr.cons (Json.obj (objOf [("type", Json.str "null")])) JsonArr.nil)))])
  else
    Json.obj (objOf [("$ref", Json.str refPath)])

/-- The per-field outcome `update_schema` prints. -/
inductive FieldOutcome where
  | updated : String → FieldOutcome
  | fieldMissing : String → FieldOutcome
  deriving DecidableEq

/-- The field loop of `update_schema`: each configured field present in
`properties` is replaced by `make_ref`, an absent field is reported and
skipped.  `upds` is the `field -> (ref_path, nullable)` mapping, in
iteration order. -/
def applyFieldUpdates (props : List (String × Json)) (upds : List (String × String × Bool)) :
    List (String × Json) × List FieldOutcome :=
  upds.foldl
    (fun acc u =>
      if hasKey acc.1 u.1 then
        (dinsert acc.1 u.1 (make_ref u.2.1 u.2.2), acc.2 ++ [FieldOutcome.updated u.1])
      else
        (acc.1, acc.2 ++ [FieldOutcome.fieldMissing u.1]))
    (props, [])

/-- The per-document outcome of `update_schema`. -/
inductive DocOutcome where
  | docMissing : DocOutcome
  | processed : List FieldOutcome → DocOutcome
  deriving DecidableEq

/-- The top-level JSON value `update_schema` serializes. -/
def dbSchemaJson (s : DbSchema) : Json :=
  Json.obj (objOf (s.extra ++ [("properties", Json.obj (objOf s.properties))]))

/-- The bytes `update_schema` writes: `json.dump(schema, f, indent=2)`
followed by `f.write("\n")`. -/
def rewriterWritePayload (s : DbSchema) : List Char :=
  dumpVal 0 (dbSchemaJson s) ++ ['\n']

/-- `update_schema` from `fix_typed_ids.py` including its file effects:
if the named file is absent the document is skipped with no write;
otherwise the field updates are applied and the document is written back
unconditionally. -/
def update_schema (store : List (String × DbSchema)) (file : String)
    (upds : List (String × String × Bool)) :
    List (String × DbSchema) × List (String × List Char) × DocOutcome :=
  match alookup store file with
  | none => (store, [], DocOutcome.docMissing)
  | some s =>
      let r := applyFieldUpdates s.properties upds
      let s2 : DbSchema := { s with properties := r.1 }
      (dinsert store file s2, [(file, rewriterWritePayload s2)], DocOutcome.processed r.2)

/-! ### Concrete documents used in the concrete theorems below -/

/-- The spec's composition scenario document, with arbitrary field
schemas and an arbitrary original `required` list. -/
def scenarioDoc (vid vt vc va ve vn : Json) (req : List String) : Schema :=
  { props := [("id", vid), ("tenant_id", vt), ("created_at", vc),
              ("amplitude", va), ("energy", ve), ("name", vn)]
    required := req
    xcomp := none
    extra := [] }

/-- A document owning a property literally named `physics` next to a
physics field: the ref insertion and the own-field copy then collide. -/
def collideDoc : Schema :=
  { props := [("amplitude", Json.null), ("physics", Json.str "P")]
    required := ["physics"]
    xcomp := none
    extra := [] }

/-- Same collision, with an empty `required` list. -/
def collideDoc2 : Schema :=
  { props := [("amplitude", Json.null), ("physics", Json.str "x")]
    required := []
    xcomp := none
    extra := [] }

/-- An ordinary entity document: one identity field, one physics field,
one own field, an untouched extra key. -/
def plainDoc : Schema :=
  { props := [("id", Json.null), ("amplitude", Json.bool true), ("name", Json.str "n")]
    required := ["id", "name"]
    xcomp := none
    extra := [("title", Json.str "T")] }

/-- A document with no physics fields at all. -/
def noPhysDoc : Schema :=
  { props := [("id", Json.null), ("name", Json.str "n")]
    required := ["name"]
    xcomp := none
    extra := [] }

/-- A document carrying `x-familiar-composition` metadata from a prior
run, together with a physics field absorbed in this run. -/
def priorRunDoc : Schema :=
  { props := [("amplitude", Json.null)]
    required := []
    xcomp := some (Json.str "old")
    extra := [] }

/-- A small document used to inspect the exact bytes the composition
script writes. -/
def bytesDoc : Schema :=
  { props := [("name", Json.str "x")]
    required := ["name"]
    xcomp := none
    extra := [] }

/-- A database schema document with a single string-typed field, as in
the typed-reference rewrite scenario. -/
def senderDoc : DbSchema :=
  { properties := [("sender_id", Json.obj (objOf [("type", Json.str "string")]))]
    extra := [] }

/-- A database schema document none of whose fields are configured. -/
def untouchedDoc : DbSchema :=
  { properties := [("other", Json.str "s")]
    extra := [] }

/-- A one-document backing store for the rewriter. -/
def oneDocStore : List (String × DbSchema) :=
  [("MessageModel.schema.json", senderDoc)]

/-- A backing store holding only a document with no configured fields. -/
def untouchedStore : List (String × DbSchema) :=
  [("ChannelModel.schema.json", untouchedDoc)]

/-! ### Basic facts about the ordered-mapping operations -/

theorem hasKey_iff {α : Type} (m : List (String × α)) (k : String) :
    hasKey m k = true ↔ k ∈ keysOf m := by
  simp [hasKey, keysOf, List.any_eq_true]

theorem keysOf_cons {α : Type} (kv : String × α) (m : List (String × α)) :
    keysOf (kv :: m) = kv.1 :: keysOf m := rfl

theorem keysOf_append {α : Type} (m₁ m₂ : List (String × α)) :
    keysOf (m₁ ++ m₂) = keysOf m₁ ++ keysOf m₂ := by
  simp [keysOf]

theorem keysOf_dinsert {α : Type} (m : List (String × α)) (k : String) (v : α) :
    keysOf (dinsert m k v) = if k ∈ keysOf m then keysOf m else keysOf m ++ [k] := by
  unfold dinsert
  by_cases h : k ∈ keysOf m
  · rw [if_pos ((hasKey_iff m k).mpr h), if_pos h]
    unfold keysOf
    rw [List.map_map]
    apply List.map_congr_left
    intro kv _
    by_cases hk : kv.1 = k
    · simp [Function.comp, hk]
    · simp [Function.comp, hk]
  · rw [if_neg (fun hc => h ((hasKey_iff m k).mp hc)), if_neg h]
    simp [keysOf]

theorem dinsert_of_not_mem {α : Type} {m : List (String × α)} {k : String} (v : α)
    (h : k ∉ keysOf m) : dinsert m k v = m ++ [(k, v)] := by
  unfold dinsert
  rw [if_neg (fun hc => h ((hasKey_iff m k).mp hc))]

theorem mem_keysOf_dinsert_of_mem {α : Type} {m : List (String × α)} {a k : String} (v : α)
    (h : a ∈ keysOf m) : a ∈ keysOf (dinsert m k v) := by
  rw [keysOf_dinsert]
  split
  · exact h
  · exact List.mem_append_left _ h

theorem self_mem_keysOf_dinsert {α : Type} (m : List (String × α)) (k : String) (v : α) :
    k ∈ keysOf (dinsert m k v) := by
  rw [keysOf_dinsert]
  split
  · assumption
  · simp

theorem alookup_cons {α : Type} (kv : String × α) (m : List (String × α)) (k : String) :
    alookup (kv :: m) k = if kv.1 == k then some kv.2 else alookup m k := rfl

theorem alookup_eq_none {α : Type} {m : List (String × α)} {k : String}
    (h : k ∉ keysOf m) : alookup m k = none := by
  induction m with
  | nil => rfl
  | cons kv m ih =>
      rw [keysOf_cons] at h
      have hne : kv.1 ≠ k := fun he => h (by simp [he])
      rw [alookup_cons, if_neg (by simpa using hne)]
      exact ih (fun hm => h (List.mem_cons_of_mem _ hm))

theorem alookup_append_of_not_mem {α : Type} {m₁ : List (String × α)} (m₂ : List (String × α))
    {k : String} (h : k ∉ keysOf m₁) : alookup (m₁ ++ m₂) k = alookup m₂ k := by
  induction m₁ with
  | nil => rfl
  | cons kv m ih =>
      rw [keysOf_cons] at h
      have hne : kv.1 ≠ k := fun he => h (by simp [he])
      rw [List.cons_append, alookup_cons, if_neg (by simpa using hne)]
      exact ih (fun hm => h (List.mem_cons_of_mem _ hm))

theorem alookup_map_update {α : Type} {m : List (String × α)} {k : String} (v : α)
    (h : hasKey m k = true) :
    alookup (m.map (fun kv => if kv.1 == k then (k, v) else kv)) k = some v := by
  induction m with
  | nil => simp [hasKey] at h
  | cons kv m ih =>
      by_cases hk : kv.1 = k
      · simp [alookup_cons, hk]
      · simp only [List.map_cons, if_neg (by simpa using hk : ¬(kv.1 == k) = true)]
        rw [alookup_cons, if_neg (by simpa using hk)]
        apply ih
        simpa [hasKey, hk] using h

theorem alookup_dinsert_self {α : Type} (m : List (String × α)) (k : String) (v : α) :
    alookup (dinsert m k v) k = some v := by
  unfold dinsert
  by_cases h : hasKey m k = true
  · rw [if_pos h]
    exact alookup_map_update v h
  · rw [if_neg h]
    rw [alookup_append_of_not_mem _ (fun hm => h ((hasKey_iff m k).mpr hm))]
    simp [alookup_cons]

/-! ### The copy loops -/

theorem addFields_eq (req : List String) (acc : List (String × Json) × List String)
    (fs : List (String × Json)) :
    addFields req acc fs = (addProps acc.1 fs, acc.2 ++ reqFilter req fs) := by
  induction fs generalizing acc with
  | nil => simp [addFields, addProps, reqFilter, keysOf]
  | cons kv fs ih =>
      show addFields req (dinsert acc.1 kv.1 kv.2,
        if req.contains kv.1 then acc.2 ++ [kv.1] else acc.2) fs = _
      rw [ih]
      show (_, (if req.contains kv.1 then acc.2 ++ [kv.1] else acc.2) ++ reqFilter req fs) = _
      have hreq : (if req.contains kv.1 then acc.2 ++ [kv.1] else acc.2) ++ reqFilter req fs =
          acc.2 ++ reqFilter req (kv :: fs) := by
        unfold reqFilter
        rw [keysOf_cons, List.filter_cons]
        by_cases hc : kv.1 ∈ req
        · simp [hc]
        · simp [hc]
      rw [hreq]
      rfl

theorem addProps_of_fresh (acc : List (String × Json)) (fs : List (String × Json))
    (hfresh : ∀ kv ∈ fs, kv.1 ∉ keysOf acc) (hnd : (keysOf fs).Nodup) :
    addProps acc fs = acc ++ fs := by
  induction fs generalizing acc with
  | nil => simp [addProps]
  | cons kv fs ih =>
      show addProps (dinsert acc kv.1 kv.2) fs = _
      rw [keysOf_cons] at hnd
      rw [dinsert_of_not_mem kv.2 (hfresh kv (List.mem_cons_self _ _) )]
      rw [ih (acc ++ [(kv.1, kv.2)])
        (fun kv2 h2 => by
          rw [keysOf_append]
          intro hmem
          rcases List.mem_append.mp hmem with hl | hr
          · exact hfresh kv2 (List.mem_cons_of_mem _ h2) hl
          · have : kv2.1 = kv.1 := by simpa [keysOf] using hr
            exact (List.nodup_cons.mp hnd).1 (this ▸ List.mem_map_of_mem Prod.fst h2))
        (List.nodup_cons.mp hnd).2]
      simp

theorem mem_keysOf_addProps_of_mem {a : String} (acc : List (String × Json))
    (fs : List (String × Json)) (h : a ∈ keysOf acc) : a ∈ keysOf (addProps acc fs) := by
  induction fs generalizing acc with
  | nil => exact h
  | cons kv fs ih =>
      exact ih (dinsert acc kv.1 kv.2) (mem_keysOf_dinsert_of_mem kv.2 h)

theorem mem_keysOf_addProps_of_mem_fields {a : String} (acc : List (String × Json))
    (fs : List (String × Json)) (h : a ∈ keysOf fs) : a ∈ keysOf (addProps acc fs) := by
  induction fs generalizing acc with
  | nil => simp [keysOf] at h
  | cons kv fs ih =>
      rw [keysOf_cons] at h
      rcases List.mem_cons.mp h with he | hm
      · exact he ▸ mem_keysOf_addProps_of_mem _ fs (self_mem_keysOf_dinsert acc kv.1 kv.2)
      · exact ih (dinsert acc kv.1 kv.2) hm

/-! ### Facts about the classifier selections -/

theorem identity_physics_disjoint :
    ∀ k ∈ IDENTITY_FIELDS, PHYSICS_FIELDS.contains k = false := by decide

theorem physics_key_not_identity : "physics" ∉ IDENTITY_FIELDS := by decide

theorem physics_key_not_physics : "physics" ∉ PHYSICS_FIELDS := by decide

theorem keysOf_filter_subset {a : String} (l : List (String × Json)) (p : String × Json → Bool)
    (h : a ∈ keysOf (l.filter p)) : a ∈ keysOf l := by
  unfold keysOf at h ⊢
  exact ((List.filter_sublist l).map Prod.fst).mem h

theorem keysOf_filter_nodup (l : List (String × Json)) (p : String × Json → Bool)
    (h : (keysOf l).Nodup) : (keysOf (l.filter p)).Nodup :=
  h.sublist ((List.filter_sublist l).map Prod.fst)

theorem mem_keysOf_filter {a : String} {l : List (String × Json)} {p : String × Json → Bool}
    (h : a ∈ keysOf (l.filter p)) : ∃ kv ∈ l, kv.1 = a ∧ p kv = true := by
  unfold keysOf at h
  rcases List.mem_map.mp h with ⟨kv, hkv, he⟩
  rcases List.mem_filter.mp hkv with ⟨hmem, hp⟩
  exact ⟨kv, hmem, he, hp⟩

theorem mem_keysOf_identitySel {a : String} {s : Schema}
    (h : a ∈ keysOf (identitySel s)) : a ∈ IDENTITY_FIELDS := by
  rcases mem_keysOf_filter h with ⟨kv, _, he, hp⟩
  exact he ▸ List.elem_iff.mp hp

theorem mem_keysOf_physicsSel {a : String} {s : Schema}
    (h : a ∈ keysOf (physicsSel s)) : a ∈ PHYSICS_FIELDS := by
  rcases mem_keysOf_filter h with ⟨kv, _, he, hp⟩
  exact he ▸ List.elem_iff.mp hp

theorem mem_keysOf_ownSel {a : String} {s : Schema}
    (h : a ∈ keysOf (ownSel s)) :
    a ∉ IDENTITY_FIELDS ∧ a ∉ PHYSICS_FIELDS := by
  rcases mem_keysOf_filter h with ⟨kv, _, he, hp⟩
  subst he
  simpa using hp

theorem classify_eq (s : Schema) :
    classifyFields IDENTITY_FIELDS PHYSICS_FIELDS s.props =
      (identitySel s, physicsSel s, ownSel s) := rfl

theorem mem_props_of_mem_ownSel {kv : String × Json} {s : Schema}
    (h : kv ∈ ownSel s) : kv.1 ∈ keysOf s.props :=
  keysOf_filter_subset s.props _ (List.mem_map_of_mem Prod.fst h)

theorem ownSel_fresh_for_identity {s : Schema} :
    ∀ kv ∈ ownSel s, kv.1 ∉ keysOf (identitySel s) := by
  intro kv hkv hmem
  exact (mem_keysOf_ownSel (List.mem_map_of_mem Prod.fst hkv)).1 (mem_keysOf_identitySel hmem)

theorem physics_fresh_for_identity {s : Schema} :
    "physics" ∉ keysOf (identitySel s) :=
  fun hmem => physics_key_not_identity (mem_keysOf_identitySel hmem)

/-! ### Closed forms of `compose_entity` -/

theorem compose_entity_closed_nophys (s : Schema)
    (hnd : (keysOf s.props).Nodup) (hphys : physicsSel s = []) :
    compose_entity s =
      { props := identitySel s ++ ownSel s
        required := reqFilter s.required (identitySel s) ++ reqFilter s.required (ownSel s)
        xcomp := some (match s.xcomp with
          | some j => j
          | none => compositionRecord (physicsSel s))
        extra := s.extra } := by
  have h1 : addFields s.required ([], []) (identitySel s) =
      (identitySel s, reqFilter s.required (identitySel s)) := by
    rw [addFields_eq]
    rw [show addProps ([] : List (String × Json)) (identitySel s) = [] ++ identitySel s from
      addProps_of_fresh [] _ (by simp [keysOf]) (keysOf_filter_nodup _ _ hnd)]
    simp
  have h3 : addFields s.required (identitySel s, reqFilter s.required (identitySel s)) (ownSel s) =
      (identitySel s ++ ownSel s,
        reqFilter s.required (identitySel s) ++ reqFilter s.required (ownSel s)) := by
    rw [addFields_eq]
    rw [addProps_of_fresh _ _ ownSel_fresh_for_identity (keysOf_filter_nodup _ _ hnd)]
  simp only [compose_entity, classify_eq]
  rw [h1, hphys]
  simp only [List.isEmpty_nil, if_true]
  rw [h3]

theorem compose_entity_closed (s : Schema)
    (hnd : (keysOf s.props).Nodup) (hp : "physics" ∉ keysOf s.props) :
    compose_entity s =
      { props := identitySel s ++ physPart s ++ ownSel s
        required := reqFilter s.required (identitySel s) ++ physReq s ++
          reqFilter s.required (ownSel s)
        xcomp := some (match s.xcomp with
          | some j => j
          | none => compositionRecord (physicsSel s))
        extra := s.extra } := by
  by_cases hE : (physicsSel s).isEmpty = true
  · have hphys : physicsSel s = [] := List.isEmpty_iff.mp hE
    rw [compose_entity_closed_nophys s hnd hphys]
    simp [physPart, physReq, hE]
  · have h1 : addFields s.required ([], []) (identitySel s) =
        (identitySel s, reqFilter s.required (identitySel s)) := by
      rw [addFields_eq]
      rw [show addProps ([] : List (String × Json)) (identitySel s) = [] ++ identitySel s from
        addProps_of_fresh [] _ (by simp [keysOf]) (keysOf_filter_nodup _ _ hnd)]
      simp
    have h2 : dinsert (identitySel s) "physics" physicsRefVal =
        identitySel s ++ [("physics", physicsRefVal)] :=
      dinsert_of_not_mem _ physics_fresh_for_identity
    have hfresh : ∀ kv ∈ ownSel s, kv.1 ∉ keysOf (identitySel s ++ [("physics", physicsRefVal)]) := by
      intro kv hkv hmem
      rw [keysOf_append] at hmem
      rcases List.mem_append.mp hmem with hl | hr
      · exact ownSel_fresh_for_identity kv hkv hl
      · have : kv.1 = "physics" := by simpa [keysOf] using hr
        exact hp (this ▸ mem_props_of_mem_ownSel hkv)
    have h3 : addFields s.required
        (identitySel s ++ [("physics", physicsRefVal)],
          reqFilter s.required (identitySel s) ++ ["physics"]) (ownSel s) =
        (identitySel s ++ [("physics", physicsRefVal)] ++ ownSel s,
          reqFilter s.required (identitySel s) ++ ["physics"] ++ reqFilter s.required (ownSel s)) := by
      rw [addFields_eq]
      rw [addProps_of_fresh _ _ hfresh (keysOf_filter_nodup _ _ hnd)]
    simp only [compose_entity, classify_eq]
    rw [h1]
    have hEf : (physicsSel s).isEmpty = false := by
      cases hb : (physicsSel s).isEmpty
      · rfl
      · exact absurd hb hE
    rw [hEf]
    simp only [Bool.false_eq_true, if_false]
    rw [h2, h3]
    simp [physPart, physReq, hEf]

/-! ### Reclassifying an already-composed property list -/

theorem filter_filter_self (l : List (String × Json)) (p : String × Json → Bool) :
    (l.filter p).filter p = l.filter p :=
  List.filter_eq_self.mpr (fun _ hkv => (List.mem_filter.mp hkv).2)

theorem filter_P_identitySel (s : Schema) :
    (identitySel s).filter (fun kv => PHYSICS_FIELDS.contains kv.1) = [] := by
  rw [List.filter_eq_nil_iff]
  intro kv hkv
  have h1 : kv.1 ∈ IDENTITY_FIELDS := by
    have := (List.mem_filter.mp hkv).2
    simpa using this
  intro hc
  have h2 : PHYSICS_FIELDS.contains kv.1 = true := hc
  rw [identity_physics_disjoint kv.1 h1] at h2
  exact Bool.false_ne_true h2

theorem filter_O_identitySel (s : Schema) :
    (identitySel s).filter
      (fun kv => !IDENTITY_FIELDS.contains kv.1 && !PHYSICS_FIELDS.contains kv.1) = [] := by
  rw [List.filter_eq_nil_iff]
  intro kv hkv
  have h1 : kv.1 ∈ IDENTITY_FIELDS := by
    have := (List.mem_filter.mp hkv).2
    simpa using this
  simp
  intro h
  exact absurd h1 h

theorem filter_I_ownSel (s : Schema) :
    (ownSel s).filter (fun kv => IDENTITY_FIELDS.contains kv.1) = [] := by
  rw [List.filter_eq_nil_iff]
  intro kv hkv
  have := (List.mem_filter.mp hkv).2
  simp at this ⊢
  exact this.1

theorem filter_P_ownSel (s : Schema) :
    (ownSel s).filter (fun kv => PHYSICS_FIELDS.contains kv.1) = [] := by
  rw [List.filter_eq_nil_iff]
  intro kv hkv
  have := (List.mem_filter.mp hkv).2
  simp at this ⊢
  exact this.2

theorem filter_I_physPart (s : Schema) :
    (physPart s).filter (fun kv => IDENTITY_FIELDS.contains kv.1) = [] := by
  unfold physPart
  split
  · rfl
  · decide

theorem filter_P_physPart (s : Schema) :
    (physPart s).filter (fun kv => PHYSICS_FIELDS.contains kv.1) = [] := by
  unfold physPart
  split
  · rfl
  · decide

theorem filter_O_physPart (s : Schema) :
    (physPart s).filter
      (fun kv => !IDENTITY_FIELDS.contains kv.1 && !PHYSICS_FIELDS.contains kv.1) = physPart s := by
  unfold physPart
  split
  · rfl
  · decide

theorem bool_eq_of_iff {a b : Bool} (h : a = true ↔ b = true) : a = b := by
  cases a <;> cases b <;> simp_all

theorem mem_physReq {k : String} {s : Schema} (h : k ∈ physReq s) : k = "physics" := by
  unfold physReq at h
  split at h
  · simp at h
  · simpa using h

theorem mem_reqFilter {k : String} {req : List String} {l : List (String × Json)}
    (h : k ∈ reqFilter req l) : k ∈ keysOf l ∧ k ∈ req := by
  rcases List.mem_filter.mp h with ⟨h1, h2⟩
  exact ⟨h1, by simpa using h2⟩

theorem reqFilter_append (req : List String) (l₁ l₂ : List (String × Json)) :
    reqFilter req (l₁ ++ l₂) = reqFilter req l₁ ++ reqFilter req l₂ := by
  unfold reqFilter
  rw [keysOf_append, List.filter_append]

/-- A schema whose fields are already in composed shape is a fixed point
of `compose_entity`. -/
theorem compose_entity_fixed (t : Schema)
    (hnd : (keysOf t.props).Nodup)
    (hphys : physicsSel t = [])
    (hid : identitySel t ++ ownSel t = t.props)
    (hreq : reqFilter t.required (identitySel t) ++ reqFilter t.required (ownSel t) = t.required)
    (j : Json) (hx : t.xcomp = some j) :
    compose_entity t = t := by
  rw [compose_entity_closed_nophys t hnd hphys, hid, hreq, hx]
  show Schema.mk t.props t.required (some j) t.extra = t
  rw [← hx]

theorem filter_I_identitySel (s : Schema) :
    (identitySel s).filter (fun kv => IDENTITY_FIELDS.contains kv.1) = identitySel s := by
  unfold identitySel
  exact filter_filter_self _ _

theorem filter_O_ownSel (s : Schema) :
    (ownSel s).filter
      (fun kv => !IDENTITY_FIELDS.contains kv.1 && !PHYSICS_FIELDS.contains kv.1) = ownSel s := by
  unfold ownSel
  exact filter_filter_self _ _

theorem mem_keysOf_physPart {a : String} {s : Schema}
    (h : a ∈ keysOf (physPart s)) : a = "physics" := by
  unfold physPart at h
  split at h
  · simp [keysOf] at h
  · simpa [keysOf] using h

theorem identitySel_composed (s : Schema) :
    (identitySel s ++ physPart s ++ ownSel s).filter
      (fun kv => IDENTITY_FIELDS.contains kv.1) = identitySel s := by
  rw [List.filter_append, List.filter_append,
    filter_I_identitySel, filter_I_physPart, filter_I_ownSel]
  simp

theorem physicsSel_composed (s : Schema) :
    (identitySel s ++ physPart s ++ ownSel s).filter
      (fun kv => PHYSICS_FIELDS.contains kv.1) = [] := by
  rw [List.filter_append, List.filter_append,
    filter_P_identitySel, filter_P_physPart, filter_P_ownSel]
  simp

theorem ownSel_composed (s : Schema) :
    (identitySel s ++ physPart s ++ ownSel s).filter
      (fun kv => !IDENTITY_FIELDS.contains kv.1 && !PHYSICS_FIELDS.contains kv.1) =
      physPart s ++ ownSel s := by
  rw [List.filter_append, List.filter_append,
    filter_O_identitySel, filter_O_physPart, filter_O_ownSel]
  simp

theorem keysOf_composed_nodup (s : Schema) (hnd : (keysOf s.props).Nodup)
    (hp : "physics" ∉ keysOf s.props) :
    (keysOf (identitySel s ++ physPart s ++ ownSel s)).Nodup := by
  rw [keysOf_append, keysOf_append]
  rw [List.nodup_append, List.nodup_append]
  refine ⟨⟨keysOf_filter_nodup _ _ hnd, ?_, ?_⟩, keysOf_filter_nodup _ _ hnd, ?_⟩
  · unfold physPart
    split
    · simp [keysOf]
    · simp [keysOf]
  · intro a haI haP
    exact physics_key_not_identity ((mem_keysOf_physPart haP) ▸ mem_keysOf_identitySel haI)
  · intro a haIP haO
    rcases List.mem_append.mp haIP with haI | haP
    · exact (mem_keysOf_ownSel haO).1 (mem_keysOf_identitySel haI)
    · exact hp ((mem_keysOf_physPart haP) ▸ keysOf_filter_subset s.props _ haO)

theorem reqFilter_R_identity (s : Schema) :
    reqFilter (reqFilter s.required (identitySel s) ++ physReq s ++
        reqFilter s.required (ownSel s)) (identitySel s) =
      reqFilter s.required (identitySel s) := by
  unfold reqFilter
  apply List.filter_congr
  intro k hk
  have hkI : k ∈ IDENTITY_FIELDS := mem_keysOf_identitySel hk
  apply bool_eq_of_iff
  rw [List.elem_iff, List.elem_iff]
  constructor
  · intro hmem
    rcases List.mem_append.mp hmem with h12 | hO
    · rcases List.mem_append.mp h12 with hI | hP
      · exact (mem_reqFilter hI).2
      · exact absurd (mem_physReq hP ▸ hkI) physics_key_not_identity
    · exact absurd (mem_keysOf_identitySel hk) ((mem_keysOf_ownSel (mem_reqFilter hO).1).1).elim
  · intro hreq
    exact List.mem_append_left _ (List.mem_append_left _
      (List.mem_filter.mpr ⟨hk, List.elem_iff.mpr hreq⟩))

theorem reqFilter_R_own (s : Schema) (hp : "physics" ∉ keysOf s.props) :
    reqFilter (reqFilter s.required (identitySel s) ++ physReq s ++
        reqFilter s.required (ownSel s)) (ownSel s) =
      reqFilter s.required (ownSel s) := by
  unfold reqFilter
  apply List.filter_congr
  intro k hk
  apply bool_eq_of_iff
  rw [List.elem_iff, List.elem_iff]
  constructor
  · intro hmem
    rcases List.mem_append.mp hmem with h12 | hO
    · rcases List.mem_append.mp h12 with hI | hP
      · exact absurd (mem_keysOf_identitySel (mem_reqFilter hI).1) (mem_keysOf_ownSel hk).1
      · exact absurd (mem_physReq hP ▸ keysOf_filter_subset s.props _ hk) hp
    · exact (mem_reqFilter hO).2
  · intro hreq
    exact List.mem_append_right _ (List.mem_filter.mpr ⟨hk, List.elem_iff.mpr hreq⟩)

theorem reqFilter_R_phys (s : Schema) :
    reqFilter (reqFilter s.required (identitySel s) ++ physReq s ++
        reqFilter s.required (ownSel s)) (physPart s) = physReq s := by
  by_cases hE : (physicsSel s).isEmpty = true
  · unfold physPart physReq
    rw [if_pos hE, if_pos hE]
    rfl
  · unfold physPart physReq
    rw [if_neg hE, if_neg hE]
    unfold reqFilter
    simp only [keysOf, List.map_cons, List.map_nil, List.filter_cons, List.filter_nil]
    rw [if_pos (List.elem_iff.mpr
      (List.mem_append_left _ (List.mem_append_right _ (by simp))))]

theorem addFields_mem_keys (req : List String) (acc : List (String × Json) × List String)
    (fs : List (String × Json)) (h : ∀ k ∈ acc.2, k ∈ keysOf acc.1) :
    ∀ k ∈ (addFields req acc fs).2, k ∈ keysOf (addFields req acc fs).1 := by
  rw [addFields_eq]
  intro k hk
  rcases List.mem_append.mp hk with h1 | h2
  · exact mem_keysOf_addProps_of_mem _ _ (h k h1)
  · exact mem_keysOf_addProps_of_mem_fields _ _ (mem_reqFilter h2).1

theorem alookup_composed_physics (s : Schema) (hp : "physics" ∉ keysOf s.props) :
    alookup (identitySel s ++ physPart s ++ ownSel s) "physics" =
      if (physicsSel s).isEmpty then none else some physicsRefVal := by
  rw [List.append_assoc, alookup_append_of_not_mem _ physics_fresh_for_identity]
  unfold physPart
  by_cases hE : (physicsSel s).isEmpty = true
  · rw [if_pos hE, if_pos hE, List.nil_append]
    exact alookup_eq_none
      (fun h => hp (keysOf_filter_subset s.props _ h))
  · rw [if_neg hE, if_neg hE, List.singleton_append, alookup_cons]
    simp

theorem applyFieldUpdates_fold_missing (props : List (String × Json))
    (upds : List (String × String × Bool)) (r : List FieldOutcome)
    (h : ∀ u ∈ upds, u.1 ∉ keysOf props) :
    (upds.foldl (fun acc u =>
      if hasKey acc.1 u.1 then
        (dinsert acc.1 u.1 (make_ref u.2.1 u.2.2), acc.2 ++ [FieldOutcome.updated u.1])
      else (acc.1, acc.2 ++ [FieldOutcome.fieldMissing u.1])) (props, r)).1 = props := by
  induction upds generalizing r with
  | nil => rfl
  | cons u upds ih =>
      rw [List.foldl_cons]
      have hk : hasKey props u.1 = false := by
        cases hb : hasKey props u.1
        · rfl
        · exact absurd ((hasKey_iff _ _).mp hb) (h u (List.mem_cons_self _ _))
      rw [if_neg (by simp [hk])]
      exact ih _ (fun u2 hu2 => h u2 (List.mem_cons_of_mem _ hu2))

theorem applyFieldUpdates_all_missing (props : List (String × Json))
    (upds : List (String × String × Bool))
    (h : ∀ u ∈ upds, u.1 ∉ keysOf props) :
    (applyFieldUpdates props upds).1 = props :=
  applyFieldUpdates_fold_missing props upds [] h

theorem applyFieldUpdates_single (props : List (String × Json)) (f P : String) (nb : Bool)
    (h : f ∈ keysOf props) :
    applyFieldUpdates props [(f, P, nb)] =
      (dinsert props f (make_ref P nb), [FieldOutcome.updated f]) := by
  unfold applyFieldUpdates
  rw [List.foldl_cons, List.foldl_nil]
  rw [if_pos (show hasKey props f = true from (hasKey_iff props f).mpr h)]
  rfl

/-! ### Claim theorems -/

/-- C1 (amended): for every schema document whose properties mapping has
no duplicate keys and does not itself contain a property named
`physics`, running `compose_entity` twice yields the same document as
running it once.  (As stated over all documents the claim fails: a
document owning a property literally named `physics` next to a physics
field makes the second run's `required` list differ, see the
counterexample.) -/
theorem compose_entity_idempotent_of_no_physics_key (s : Schema)
    (hnd : (keysOf s.props).Nodup) (hp : "physics" ∉ keysOf s.props) :
    compose_entity (compose_entity s) = compose_entity s := by
  rw [compose_entity_closed s hnd hp]
  refine compose_entity_fixed _ ?_ ?_ ?_ ?_
    (match s.xcomp with
     | some j => j
     | none => compositionRecord (physicsSel s)) rfl
  · show (keysOf (identitySel s ++ physPart s ++ ownSel s)).Nodup
    exact keysOf_composed_nodup s hnd hp
  · show (identitySel s ++ physPart s ++ ownSel s).filter
      (fun kv => PHYSICS_FIELDS.contains kv.1) = []
    exact physicsSel_composed s
  · show (identitySel s ++ physPart s ++ ownSel s).filter
        (fun kv => IDENTITY_FIELDS.contains kv.1) ++
      (identitySel s ++ physPart s ++ ownSel s).filter
        (fun kv => !IDENTITY_FIELDS.contains kv.1 && !PHYSICS_FIELDS.contains kv.1) =
      identitySel s ++ physPart s ++ ownSel s
    rw [identitySel_composed, ownSel_composed, ← List.append_assoc]
  · show reqFilter (reqFilter s.required (identitySel s) ++ physReq s ++
        reqFilter s.required (ownSel s))
        ((identitySel s ++ physPart s ++ ownSel s).filter
          (fun kv => IDENTITY_FIELDS.contains kv.1)) ++
      reqFilter (reqFilter s.required (identitySel s) ++ physReq s ++
        reqFilter s.required (ownSel s))
        ((identitySel s ++ physPart s ++ ownSel s).filter
          (fun kv => !IDENTITY_FIELDS.contains kv.1 && !PHYSICS_FIELDS.contains kv.1)) =
      reqFilter s.required (identitySel s) ++ physReq s ++ reqFilter s.required (ownSel s)
    rw [identitySel_composed, ownSel_composed, reqFilter_append,
      reqFilter_R_identity s, reqFilter_R_phys s, reqFilter_R_own s hp,
      ← List.append_assoc]

/-- C1 counterexample: on `collideDoc` (an own property named `physics`
next to the physics field `amplitude`, with `physics` required) the
first run appends `physics` to `new_required` twice — once for the
reference and once for the own field — while the second run appends it
once, so composing twice differs from composing once. -/
theorem compose_entity_not_idempotent_cex :
    compose_entity (compose_entity collideDoc) ≠ compose_entity collideDoc := by decide

/-- C1 witness: the amended idempotence theorem applied to a concrete
ordinary document. -/
theorem compose_entity_idempotent_witness :
    (keysOf plainDoc.props).Nodup ∧ "physics" ∉ keysOf plainDoc.props ∧
      compose_entity (compose_entity plainDoc) = compose_entity plainDoc :=
  ⟨by decide, by decide,
    compose_entity_idempotent_of_no_physics_key plainDoc (by decide) (by decide)⟩

/-- C2 (amended): for every document whose properties mapping has no
duplicate keys and no property named `physics`, the output's `physics`
property is the component reference exactly when at least one physics
field was present in the original document; and when no physics field
is present the output properties are exactly the identity fields
followed by the unchanged own fields.  (As stated over all documents the
claim fails: an own property named `physics` overwrites the inserted
reference, see the counterexample.) -/
theorem physics_ref_added_iff (s : Schema)
    (hnd : (keysOf s.props).Nodup) (hp : "physics" ∉ keysOf s.props) :
    ((alookup (compose_entity s).props "physics" = some physicsRefVal) ↔ physicsSel s ≠ []) ∧
    (physicsSel s = [] → (compose_entity s).props = identitySel s ++ ownSel s) := by
  rw [compose_entity_closed s hnd hp]
  constructor
  · show alookup (identitySel s ++ physPart s ++ ownSel s) "physics" = some physicsRefVal ↔ _
    rw [alookup_composed_physics s hp]
    by_cases hE : (physicsSel s).isEmpty = true
    · rw [if_pos hE]
      simp [List.isEmpty_iff.mp hE]
    · rw [if_neg hE]
      simp only [Option.some.injEq, eq_self_iff_true, true_iff]
      exact fun hnil => hE (List.isEmpty_iff.mpr hnil)
  · intro hphys
    show identitySel s ++ physPart s ++ ownSel s = _
    unfold physPart
    rw [if_pos (List.isEmpty_iff.mpr hphys), List.append_nil]

/-- C2 counterexample: on `collideDoc2` the physics field `amplitude` is
present, yet the output's `physics` property is the document's own
`physics` value, not the component reference — the own-field copy loop
overwrites the freshly inserted reference. -/
theorem physics_ref_added_iff_cex :
    ¬ ((alookup (compose_entity collideDoc2).props "physics" = some physicsRefVal) ↔
        physicsSel collideDoc2 ≠ []) := by decide

/-- C2 witness: the amended theorem applied to a document with no
physics fields: no reference is added and the own fields pass through. -/
theorem physics_ref_added_iff_witness :
    (keysOf noPhysDoc.props).Nodup ∧ "physics" ∉ keysOf noPhysDoc.props ∧
      (((alookup (compose_entity noPhysDoc).props "physics" = some physicsRefVal) ↔
          physicsSel noPhysDoc ≠ []) ∧
        (physicsSel noPhysDoc = [] →
          (compose_entity noPhysDoc).props = identitySel noPhysDoc ++ ownSel noPhysDoc)) :=
  ⟨by decide, by decide, physics_ref_added_iff noPhysDoc (by decide) (by decide)⟩

/-- C3: for every input document — any properties mapping and any
original required list — every name in the rebuilt `required` list of
the output of `compose_entity` is a key of the rebuilt `properties`
mapping. -/
theorem required_names_in_props (s : Schema) :
    ∀ k ∈ (compose_entity s).required, k ∈ keysOf (compose_entity s).props := by
  simp only [compose_entity, classify_eq]
  apply addFields_mem_keys
  by_cases hE : (physicsSel s).isEmpty = true
  · rw [if_pos hE]
    apply addFields_mem_keys
    intro k hk
    simp at hk
  · rw [if_neg hE]
    intro k hk
    rcases List.mem_append.mp hk with h1 | h2
    · exact mem_keysOf_dinsert_of_mem _
        (addFields_mem_keys s.required ([], []) (identitySel s) (by intro k hk; simp at hk) k h1)
    · have : k = "physics" := by simpa using h2
      exact this ▸ self_mem_keysOf_dinsert _ _ _
/-- C3 witness: on a concrete document the rebuilt required name
`physics` is indeed a key of the rebuilt properties. -/
theorem required_names_in_props_witness :
    ("physics" ∈ (compose_entity plainDoc).required) ∧
      "physics" ∈ keysOf (compose_entity plainDoc).props :=
  ⟨by decide, required_names_in_props plainDoc "physics" (by decide)⟩

/-- C4: the spec's composition scenario: for any field schemas and any
original required list, the document with properties
`id, tenant_id, created_at, amplitude, energy, name` composes to
properties `id, tenant_id, created_at, physics (the component
reference), name` in that order, and the rebuilt required list contains
`physics` regardless of the original required list. -/
theorem compose_scenario (vid vt vc va ve vn : Json) (req : List String) :
    (compose_entity (scenarioDoc vid vt vc va ve vn req)).props =
      [("id", vid), ("tenant_id", vt), ("created_at", vc),
       ("physics", physicsRefVal), ("name", vn)] ∧
    "physics" ∈ (compose_entity (scenarioDoc vid vt vc va ve vn req)).required := by
  have hkeys : keysOf (scenarioDoc vid vt vc va ve vn req).props =
      ["id", "tenant_id", "created_at", "amplitude", "energy", "name"] := rfl
  have hnd : (keysOf (scenarioDoc vid vt vc va ve vn req).props).Nodup := by
    rw [hkeys]; decide
  have hp : "physics" ∉ keysOf (scenarioDoc vid vt vc va ve vn req).props := by
    rw [hkeys]; decide
  rw [compose_entity_closed _ hnd hp]
  constructor
  · rfl
  · show "physics" ∈ _ ++ physReq (scenarioDoc vid vt vc va ve vn req) ++ _
    refine List.mem_append_left _ (List.mem_append_right _ ?_)
    show "physics" ∈ ["physics"]
    simp

/-- C5: for every field configured with reference path `P`, the
rewritten field schema is exactly the `anyOf [ref P, null]` union when
the nullable flag is true and exactly `ref P` when it is false, and for
a field present in the document the previous schema fragment is fully
replaced by `make_ref`. -/
theorem make_ref_replacement (P f : String) (nb : Bool) (props : List (String × Json))
    (h : f ∈ keysOf props) :
    make_ref P true = Json.obj (JsonObj.cons "anyOf"
      (Json.arr (JsonArr.cons (Json.obj (JsonObj.cons "$ref" (Json.str P) JsonObj.nil))
        (JsonArr.cons (Json.obj (JsonObj.cons "type" (Json.str "null") JsonObj.nil))
          JsonArr.nil))) JsonObj.nil) ∧
    make_ref P false = Json.obj (JsonObj.cons "$ref" (Json.str P) JsonObj.nil) ∧
    alookup (applyFieldUpdates props [(f, P, nb)]).1 f = some (make_ref P nb) := by
  refine ⟨rfl, rfl, ?_⟩
  rw [applyFieldUpdates_single props f P nb h]
  exact alookup_dinsert_self props f (make_ref P nb)

/-- C5 witness: the spec's typed-reference scenario, `sender_id`
rewritten to a nullable `UserId` reference. -/
theorem make_ref_replacement_witness :
    "sender_id" ∈ keysOf senderDoc.properties ∧
      alookup (applyFieldUpdates senderDoc.properties
        [("sender_id", "../primitives/UserId.schema.json", true)]).1 "sender_id" =
        some (make_ref "../primitives/UserId.schema.json" true) :=
  ⟨by decide,
    (make_ref_replacement "../primitives/UserId.schema.json" "sender_id" true
      senderDoc.properties (by decide)).2.2⟩

/-- C6: a preview (dry-run) run performs no write and leaves the store
unchanged, while the computed candidate document and the reported
field-movement summary are identical to apply mode on the same input. -/
theorem dry_run_no_writes (store : List (String × Schema)) (path : String) :
    (compose_entity_run store path true).1 = store ∧
    (compose_entity_run store path true).2.1 = [] ∧
    (compose_entity_run store path true).2.2 = (compose_entity_run store path false).2.2 := by
  unfold compose_entity_run
  cases alookup store path <;> simp

/-- C7 (amended): when the `x-familiar-composition` key already exists
on a document, `compose_entity` leaves the existing metadata value
unchanged and discards the new per-group absorbed-field record; the
record is only written when the key is absent.  (The claim's merge
behaviour does not exist: see the counterexample, where absorbed fields
are not added to the existing metadata.) -/
theorem xcomp_existing_preserved (s : Schema) (j : Json) (h : s.xcomp = some j) :
    (compose_entity s).xcomp = some j := by
  simp [compose_entity, h]

/-- C7 counterexample: a document with prior-run metadata `"old"` and a
freshly absorbed physics field `amplitude`: after composition the
metadata is still exactly `"old"` — the new absorbed-field record
(which `compositionRecord` would carry) is dropped, not merged. -/
theorem xcomp_no_merge_cex :
    (compose_entity priorRunDoc).xcomp = some (Json.str "old") ∧
      physicsSel priorRunDoc ≠ [] ∧
      Json.str "old" ≠ compositionRecord (physicsSel priorRunDoc) := by decide

/-- C7 witness: the amended preservation theorem at the concrete
prior-run document. -/
theorem xcomp_existing_preserved_witness :
    priorRunDoc.xcomp = some (Json.str "old") ∧
      (compose_entity priorRunDoc).xcomp = some (Json.str "old") :=
  ⟨by decide, xcomp_existing_preserved priorRunDoc (Json.str "old") (by decide)⟩

/-- C8 (amended): every write of the typed-reference rewriter ends with
a trailing newline (`json.dump` output followed by `"\n"`); the
composition pipeline's writes are bare `json.dump` output with no
appended newline (see the counterexample). -/
theorem rewriter_write_trailing_newline (s : DbSchema) :
    (rewriterWritePayload s).getLast? = some '\n' := by
  unfold rewriterWritePayload
  exact List.getLast?_concat _

/-- C8 counterexample: the bytes the composition script writes for a
concrete document end in the closing brace of `json.dump`, not in a
newline. -/
theorem compose_write_no_trailing_newline_cex :
    (composeWritePayload (compose_entity bytesDoc)).getLast? ≠ some '\n' := by decide

/-- C9 (amended): no overlap check exists.  The shipped group member
sets are disjoint as a matter of fact, but a classifier configured with
two groups sharing the member `x` raises nothing: it classifies a
document normally and places the shared field in both matched
subsets. -/
theorem no_overlap_check (v : Json) :
    IDENTITY_FIELDS.filter (fun k => PHYSICS_FIELDS.contains k) = [] ∧
    classifyFields ["x"] ["x"] [("x", v)] = ([("x", v)], [("x", v)], []) := by
  exact ⟨by decide, rfl⟩

/-- C9 counterexample: with overlapping member sets the classifier
processes a document and returns a normal classification — no
configuration error aborts the run. -/
theorem overlap_raises_no_error_cex :
    classifyFields ["x"] ["x"] [("x", Json.null)] =
      ([("x", Json.null)], [("x", Json.null)], []) := by decide

/-- C10: whenever the named document exists in the backing store,
`update_schema` writes it back unconditionally — even when every
configured field is absent (the payload is then the unchanged document
in the rewriter's formatting); the write is skipped only when the
document is not found. -/
theorem update_schema_write_unconditional (store : List (String × DbSchema)) (file : String)
    (upds : List (String × String × Bool)) :
    (∀ s, alookup store file = some s →
      (update_schema store file upds).2.1 =
        [(file, rewriterWritePayload
          { properties := (applyFieldUpdates s.properties upds).1, extra := s.extra })] ∧
      ((∀ u ∈ upds, u.1 ∉ keysOf s.properties) →
        (update_schema store file upds).2.1 = [(file, rewriterWritePayload s)])) ∧
    (alookup store file = none →
      (update_schema store file upds).2.1 = [] ∧
      (update_schema store file upds).1 = store) := by
  constructor
  · intro s hs
    unfold update_schema
    rw [hs]
    constructor
    · rfl
    · intro hmiss
      show [(file, rewriterWritePayload
        { properties := (applyFieldUpdates s.properties upds).1, extra := s.extra })] = _
      rw [applyFieldUpdates_all_missing s.properties upds hmiss]
  · intro hn
    unfold update_schema
    rw [hn]
    exact ⟨rfl, rfl⟩

/-- C10 witness: a store whose only document has none of the configured
fields is still written back (with the unchanged document as payload),
and a missing document produces no write. -/
theorem update_schema_write_unconditional_witness :
    (alookup untouchedStore "ChannelModel.schema.json" = some untouchedDoc) ∧
    (update_schema untouchedStore "ChannelModel.schema.json"
        [("owner_id", "../primitives/UserId.schema.json", true)]).2.1 =
      [("ChannelModel.schema.json", rewriterWritePayload untouchedDoc)] ∧
    (update_schema untouchedStore "UserModel.schema.json"
        [("primary_tenant_id", "../primitives/TenantId.schema.json", true)]).2.1 = [] :=
  ⟨by decide,
    ((update_schema_write_unconditional untouchedStore "ChannelModel.schema.json"
        [("owner_id", "../primitives/UserId.schema.json", true)]).1
      untouchedDoc (by decide)).2 (by decide),
    ((update_schema_write_unconditional untouchedStore "UserModel.schema.json"
        [("primary_tenant_id", "../primitives/TenantId.schema.json", true)]).2
      (by decide)).1⟩

end FamiliarSchemas
